import Mathlib

/-!
Shallow embedding of the Memory-Cache-Simulator core
(src/cache_simulator/policies.py, src/cache_simulator/cache.py,
src/cache_simulator/utils.py) and proofs of the specified properties.

Modelling conventions: Python integers are Nat (addresses, tags, counters)
or Int (configuration parameters, where Python floor division // and %
matter, via Int.fdiv / Int.fmod); Python bytearrays are lists of byte
values; Python exceptions are Except / explicit error constructors;
Python float division in the statistics rates is modelled by exact
rational division; strings are lists of ASCII characters.
-/

namespace CacheSim

set_option maxRecDepth 100000

/-- policies.py, create_policy: which replacement-policy class a set uses,
chosen from the "LRU"/"FIFO" string. -/
inductive PolicyKind where
  | lru
  | fifo
deriving DecidableEq, Repr

/-- policies.py: the state of an LRUPolicy or FIFOPolicy instance.  Both
classes keep an OrderedDict whose keys are the tracked tags; we keep the
key list in dictionary order (head = oldest / first inserted). -/
structure Policy where
  kind : PolicyKind
  order : List Nat
deriving DecidableEq, Repr

/-- LRUPolicy.access moves a present key to the most-recent end
(OrderedDict.move_to_end, guarded by a membership test);
FIFOPolicy.access is a no-op. -/
def Policy.access (p : Policy) (key : Nat) : Policy :=
  match p.kind with
  | .lru =>
      if key ∈ p.order then { p with order := (p.order.erase key) ++ [key] } else p
  | .fifo => p

/-- add: OrderedDict item assignment.  A fresh key is appended at the
most-recent end; assigning to an already-present key keeps its position. -/
def Policy.add (p : Policy) (key : Nat) : Policy :=
  if key ∈ p.order then p else { p with order := p.order ++ [key] }

/-- remove: delete the key when present (both classes guard with a
membership test, so removal of an absent key is a no-op). -/
def Policy.remove (p : Policy) (key : Nat) : Policy :=
  { p with order := p.order.erase key }

/-- get_victim: the first (oldest) tracked key, none when nothing is
tracked (the StopIteration branch of next(iter(...))). -/
def Policy.get_victim (p : Policy) : Option Nat :=
  p.order.head?

/-- cache.py: the CacheBlock dataclass.  data is None until the first
fill (bytearray contents are modelled as a list of byte values). -/
structure CacheBlock where
  tag : Nat
  valid : Bool := false
  dirty : Bool := false
  data : Option (List Nat) := none
deriving DecidableEq, Repr

instance : Inhabited CacheBlock := ⟨{ tag := 0 }⟩

/-- The enumerate-and-test loops of CacheSet (find_block, find_empty_block
and the victim-search loop): index of the first element satisfying p. -/
def find_index (p : CacheBlock → Bool) : List CacheBlock → Option Nat
  | [] => none
  | b :: rest => if p b then some 0 else (find_index p rest).map (· + 1)

/-- cache.py: a CacheSet — its fixed list of blocks, the block size and
its private replacement-policy instance. -/
structure CacheSet where
  blocks : List CacheBlock
  block_size : Nat
  policy : Policy
deriving DecidableEq, Repr

/-- CacheSet.__init__: num_ways blocks CacheBlock(tag=0) (invalid, clean,
data None) and an empty policy. -/
def CacheSet.init (num_ways : Nat) (block_size : Nat) (kind : PolicyKind) : CacheSet :=
  { blocks := List.replicate num_ways { tag := 0 }
    block_size := block_size
    policy := { kind := kind, order := [] } }

/-- CacheSet.find_block: index of the first valid block with the given
tag (the source returns the pair (hit, index)). -/
def CacheSet.find_block (s : CacheSet) (tag : Nat) : Option Nat :=
  find_index (fun b => b.valid && b.tag == tag) s.blocks

/-- CacheSet.find_empty_block: index of the first invalid block. -/
def CacheSet.find_empty_block (s : CacheSet) : Option Nat :=
  find_index (fun b => !b.valid) s.blocks

/-- The block-load tail of CacheSet.access: overwrite slot i with the new
tag, valid=True, dirty=False, a fresh zero-filled data buffer, and record
the tag with the policy. -/
def CacheSet.fill (s : CacheSet) (i : Nat) (tag : Nat) : CacheSet :=
  { s with
    blocks := s.blocks.set i
      { tag := tag, valid := true, dirty := false
        data := some (List.replicate s.block_size 0) }
    policy := s.policy.add tag }

/-- CacheSet.access.  Returns (hit, index of the accessed block, evicted
snapshot, new set state); the two RuntimeError branches of the source are
the .error results. -/
def CacheSet.access (s : CacheSet) (tag : Nat) :
    Except String (Bool × Nat × Option CacheBlock × CacheSet) :=
  match s.find_block tag with
  | some i => .ok (true, i, none, { s with policy := s.policy.access tag })
  | none =>
    match s.find_empty_block with
    | some i => .ok (false, i, none, s.fill i tag)
    | none =>
      match s.policy.get_victim with
      | none => .error "No victim found but set is full"
      | some victim_tag =>
        match s.find_block victim_tag with
        | none => .error "Victim tag not found in set"
        | some i =>
          let b := s.blocks.getD i default
          let evicted : CacheBlock :=
            { tag := b.tag, valid := true, dirty := b.dirty, data := b.data }
          .ok (false, i, some evicted,
               ({ s with policy := s.policy.remove victim_tag }).fill i tag)

/-- The floor base-2 logarithm, by structural recursion on a fuel bound
(n halvings always suffice), so that it evaluates by kernel reduction. -/
def log2aux : Nat → Nat → Nat
  | 0, _ => 0
  | fuel + 1, n => if 2 ≤ n then log2aux fuel (n / 2) + 1 else 0

/-- The floor base-2 logarithm. -/
def log2floor (n : Nat) : Nat := log2aux n n

/-- utils.py: get_address_parts.  int(math.log2 n) is modelled as the
exact floor logarithm log2floor (they agree on every power of two, and
on all sizes real configurations use); the source's bit masks and shifts
equal mod and division by powers of two on non-negative integers.
num_sets is carried as an Int because Cache.__init__ can store a negative
num_sets (see calculate_cache_parameters). -/
def get_address_parts (address : Nat) (block_size : Int) (num_sets : Int) :
    Nat × Nat × Nat :=
  let offset_bits := log2floor block_size.toNat
  let index_bits := if 1 < num_sets then log2floor num_sets.toNat else 0
  let offset := address % 2 ^ offset_bits
  let index := if 0 < index_bits then (address / 2 ^ offset_bits) % 2 ^ index_bits else 0
  let tag := address / 2 ^ (offset_bits + index_bits)
  (tag, index, offset)

/-- The distinct failure modes of calculate_cache_parameters: ValueError
(the validation failures, re-surfaced as InvalidConfiguration) versus the
unhandled ZeroDivisionError that `total_blocks % 0` raises. -/
inductive CalcError where
  | invalid (msg : String)
  | zeroDivision
deriving DecidableEq, Repr

/-- utils.py: calculate_cache_parameters.  Python's // and % are floor
division and the matching remainder, Int.fdiv and Int.fmod. -/
def calculate_cache_parameters (total_size block_size associativity : Int) :
    Except CalcError (Int × Int) :=
  if total_size ≤ 0 ∨ block_size ≤ 0 then
    .error (.invalid "Cache and block sizes must be positive")
  else if total_size.fmod block_size ≠ 0 then
    .error (.invalid "Cache size must be divisible by block size")
  else
    let total_blocks := total_size.fdiv block_size
    if associativity = -1 then .ok (1, total_blocks)
    else if associativity = 1 then .ok (total_blocks, 1)
    else if associativity = 0 then .error .zeroDivision
    else if total_blocks.fmod associativity ≠ 0 then
      .error (.invalid "Number of blocks must be divisible by associativity")
    else .ok (total_blocks.fdiv associativity, associativity)

/-- utils.py: the CacheStatistics counters. -/
structure CacheStatistics where
  accesses : Nat := 0
  hits : Nat := 0
  misses : Nat := 0
  evictions : Nat := 0
deriving DecidableEq, Repr

/-- CacheStatistics.__init__. -/
def CacheStatistics.init : CacheStatistics := {}

/-- CacheStatistics.record_access. -/
def CacheStatistics.record_access (s : CacheStatistics) (hit : Bool) (eviction : Bool) :
    CacheStatistics :=
  { accesses := s.accesses + 1
    hits := if hit then s.hits + 1 else s.hits
    misses := if hit then s.misses else s.misses + 1
    evictions := if eviction then s.evictions + 1 else s.evictions }

/-- CacheStatistics.hit_rate: hits / accesses guarded by accesses > 0.
Python float division is modelled by exact rational division. -/
def CacheStatistics.hit_rate (s : CacheStatistics) : ℚ :=
  if 0 < s.accesses then (s.hits : ℚ) / (s.accesses : ℚ) else 0

/-- CacheStatistics.miss_rate: misses / accesses guarded by accesses > 0. -/
def CacheStatistics.miss_rate (s : CacheStatistics) : ℚ :=
  if 0 < s.accesses then (s.misses : ℚ) / (s.accesses : ℚ) else 0

/-- cache.py: the Cache object.  num_sets and ways are kept as Int
because calculate_cache_parameters can return negative values (Python
range(n) of a negative n builds an empty sets list). -/
structure Cache where
  block_size : Int
  num_sets : Int
  ways : Int
  sets : List CacheSet
  stats : CacheStatistics
deriving DecidableEq, Repr

/-- Cache.__init__: derive the topology, then build num_sets fresh sets
each with its own policy instance.  A ValueError or ZeroDivisionError in
calculate_cache_parameters propagates and no Cache is produced. -/
def Cache.build (total_size block_size associativity : Int) (kind : PolicyKind) :
    Except CalcError Cache :=
  (calculate_cache_parameters total_size block_size associativity).map fun nw =>
    { block_size := block_size
      num_sets := nw.1
      ways := nw.2
      sets := List.replicate nw.1.toNat (CacheSet.init nw.2.toNat block_size.toNat kind)
      stats := CacheStatistics.init }

/-- The write-through of Cache.access on the returned block reference:
block.dirty = True on the block at slot i of the set. -/
def CacheSet.markDirty (s : CacheSet) (i : Nat) : CacheSet :=
  { s with blocks := s.blocks.set i { s.blocks.getD i default with dirty := true } }

/-- cache.py: Cache.access.  Decode the address, access the indexed set
(an out-of-range index is Python's IndexError), dirty the accessed block
on a write, record exactly one statistics event, and return (hit, evicted
snapshot, new cache state). -/
def Cache.access (c : Cache) (address : Nat) (is_write : Bool) :
    Except String (Bool × Option CacheBlock × Cache) :=
  let parts := get_address_parts address c.block_size c.num_sets
  match c.sets[parts.2.1]? with
  | none => .error "IndexError: list index out of range"
  | some s =>
    match s.access parts.1 with
    | .error e => .error e
    | .ok (hit, bidx, evicted, s1) =>
      let s2 := if is_write then s1.markDirty bidx else s1
      .ok (hit, evicted,
           { c with sets := c.sets.set parts.2.1 s2
                    stats := c.stats.record_access hit evicted.isSome })

/-- A finite sequence of Cache.access calls (address, is_write).  An
exception aborts the sequence; the source mutates nothing before any of
its raise points, so the state at the exception is the state before the
failing call. -/
def Cache.accessMany (c : Cache) : List (Nat × Bool) → Cache
  | [] => c
  | aw :: rest =>
    match c.access aw.1 aw.2 with
    | .ok (_, _, c1) => c1.accessMany rest
    | .error _ => c

/-- The tags of the valid blocks of a list of blocks, in slot order. -/
def validTagsL (l : List CacheBlock) : List Nat :=
  (l.filter (·.valid)).map (·.tag)

/-- The tags of the valid blocks of a set. -/
def CacheSet.validTags (s : CacheSet) : List Nat :=
  validTagsL s.blocks

/-- The §3 CacheSet invariant: the policy's tracked keys are exactly the
tags of the valid blocks (each side without duplicates). -/
structure SetInv (s : CacheSet) : Prop where
  nodup_policy : s.policy.order.Nodup
  nodup_tags : s.validTags.Nodup
  same : ∀ t : Nat, t ∈ s.policy.order ↔ t ∈ s.validTags

/-- The cache-wide form of the §3 invariant: every set satisfies SetInv
and has exactly ways-per-set block slots. -/
def CacheInv (c : Cache) : Prop :=
  ∀ s ∈ c.sets, SetInv s ∧ s.blocks.length = c.ways.toNat

/-- The §3/§8 statistics invariant: accesses == hits + misses and
evictions ≤ misses. -/
def StatsInv (s : CacheStatistics) : Prop :=
  s.accesses = s.hits + s.misses ∧ s.evictions ≤ s.misses

/-- The C7 claim's stated InvalidConfiguration conditions, read over
Python floor arithmetic. -/
def claimedInvalidCond (total_size block_size associativity : Int) : Prop :=
  total_size ≤ 0 ∨ block_size ≤ 0 ∨ total_size.fmod block_size ≠ 0 ∨
    (associativity ≠ -1 ∧ associativity ≠ 1 ∧
      (total_size.fdiv block_size).fmod associativity ≠ 0)

/-- Whether a topology-derivation result is the InvalidConfiguration
failure (the ValueError branch, as opposed to success or the unhandled
ZeroDivisionError). -/
def isInvalidConfig (r : Except CalcError (Int × Int)) : Bool :=
  match r with
  | .error (.invalid _) => true
  | _ => false

/-- A concrete two-way fully-associative LRU cache (total size 8, block
size 4), used to instantiate the general theorems. -/
def demoCache : Cache :=
  { block_size := 4
    num_sets := 1
    ways := 2
    sets := [CacheSet.init 2 4 PolicyKind.lru]
    stats := CacheStatistics.init }

/-- A concrete empty two-way LRU set. -/
def demoSet : CacheSet := CacheSet.init 2 4 PolicyKind.lru

/-- The state of demoSet after access(7): slot 0 filled with tag 7. -/
def demoSet1 : CacheSet :=
  { blocks := [{ tag := 7, valid := true, dirty := false, data := some [0, 0, 0, 0] },
               { tag := 0, valid := false, dirty := false, data := none }]
    block_size := 4
    policy := { kind := PolicyKind.lru, order := [7] } }

/-- The state of demoCache after a write access to address 0: a miss that
fills slot 0 of set 0 and immediately dirties it. -/
def demoCache1 : Cache :=
  { block_size := 4
    num_sets := 1
    ways := 2
    sets := [{ blocks := [{ tag := 0, valid := true, dirty := true, data := some [0, 0, 0, 0] },
                          { tag := 0, valid := false, dirty := false, data := none }]
               block_size := 4
               policy := { kind := PolicyKind.lru, order := [0] } }]
    stats := { accesses := 1, hits := 0, misses := 1, evictions := 0 } }

/-- The Cache that Cache.build 16 4 (-2) constructs: negative num_sets,
so range() builds an empty list of sets. -/
def demoNegCache : Cache :=
  { block_size := 4
    num_sets := -2
    ways := -2
    sets := []
    stats := CacheStatistics.init }

/-- A sequence of record_access events applied to fresh statistics. -/
def CacheStatistics.applyEvents (l : List (Bool × Bool)) : CacheStatistics :=
  l.foldl (fun s e => s.record_access e.1 e.2) CacheStatistics.init

/-- The §8 LRU/FIFO divergence scenario: a fully associative cache of
total size 8 and block size 4, read accesses to 0, 4, 0, then 8; returns
the block evicted by the final access. -/
def divergenceEvicted (kind : PolicyKind) : Option CacheBlock :=
  match Cache.build 8 4 (-1) kind with
  | .error _ => none
  | .ok c =>
    match (c.accessMany [(0, false), (4, false), (0, false)]).access 8 false with
    | .error _ => none
    | .ok (_, ev, _) => ev

/-! ### Helper lemmas: the block-search loops -/

theorem find_index_eq_none {p : CacheBlock → Bool} {l : List CacheBlock} :
    find_index p l = none ↔ ∀ b ∈ l, p b = false := by
  induction l with
  | nil => simp [find_index]
  | cons b rest ih =>
    by_cases hb : p b <;> simp [find_index, hb, ih]

theorem find_index_eq_some {p : CacheBlock → Bool} {l : List CacheBlock} {i : Nat}
    (h : find_index p l = some i) :
    i < l.length ∧ p (l.getD i default) = true := by
  induction l generalizing i with
  | nil => simp [find_index] at h
  | cons b rest ih =>
    by_cases hb : p b
    · simp [find_index, hb] at h
      subst h
      simpa using hb
    · simp [find_index, hb, Option.map_eq_some'] at h
      obtain ⟨j, hj, rfl⟩ := h
      have := ih hj
      constructor
      · exact Nat.succ_lt_succ this.1
      · simpa using this.2

theorem find_index_ne_none {p : CacheBlock → Bool} {l : List CacheBlock} {b : CacheBlock}
    (hb : b ∈ l) (hp : p b = true) : find_index p l ≠ none := by
  intro h
  rw [find_index_eq_none] at h
  rw [h b hb] at hp
  exact Bool.false_ne_true hp

/-! ### Helper lemmas: valid tags -/

theorem validTagsL_nil : validTagsL [] = [] := rfl

theorem validTagsL_cons (b : CacheBlock) (l : List CacheBlock) :
    validTagsL (b :: l) = (if b.valid then [b.tag] else []) ++ validTagsL l := by
  by_cases h : b.valid <;> simp [validTagsL, h]

theorem validTagsL_append (l1 l2 : List CacheBlock) :
    validTagsL (l1 ++ l2) = validTagsL l1 ++ validTagsL l2 := by
  simp [validTagsL]

theorem mem_validTagsL {t : Nat} {l : List CacheBlock} :
    t ∈ validTagsL l ↔ ∃ b ∈ l, b.valid = true ∧ b.tag = t := by
  simp only [validTagsL, List.mem_map, List.mem_filter]
  constructor
  · rintro ⟨b, ⟨hbl, hbv⟩, rfl⟩
    exact ⟨b, hbl, hbv, rfl⟩
  · rintro ⟨b, hbl, hbv, rfl⟩
    exact ⟨b, ⟨hbl, hbv⟩, rfl⟩

theorem validTagsL_set {l : List CacheBlock} {i : Nat} (h : i < l.length) (nb : CacheBlock) :
    validTagsL (l.set i nb) =
      validTagsL (l.take i) ++ ((if nb.valid then [nb.tag] else []) ++
        validTagsL (l.drop (i + 1))) := by
  rw [List.set_eq_take_cons_drop _ h, validTagsL_append, validTagsL_cons]

theorem validTagsL_decomp {l : List CacheBlock} {i : Nat} (h : i < l.length) :
    validTagsL l =
      validTagsL (l.take i) ++
        ((if (l.getD i default).valid then [(l.getD i default).tag] else []) ++
          validTagsL (l.drop (i + 1))) := by
  conv_lhs => rw [← List.take_append_drop i l]
  rw [validTagsL_append]
  congr 1
  rw [List.getD_eq_getElem l default h, List.drop_eq_getElem_cons h, validTagsL_cons]

/-! ### Helper lemmas: the replacement policies -/

theorem Policy.mem_access_order {p : Policy} {k t : Nat} :
    t ∈ (p.access k).order ↔ t ∈ p.order := by
  obtain ⟨kind, order⟩ := p
  cases kind with
  | fifo => rfl
  | lru =>
    simp only [Policy.access]
    split
    · rename_i hk
      by_cases htk : t = k
      · subst htk
        simpa using hk
      · simp [List.mem_erase_of_ne htk, htk]
    · rfl

theorem Policy.access_order_nodup {p : Policy} {k : Nat} (h : p.order.Nodup) :
    (p.access k).order.Nodup := by
  obtain ⟨kind, order⟩ := p
  cases kind with
  | fifo => exact h
  | lru =>
    simp only [Policy.access]
    split
    · simp only [List.nodup_append, List.nodup_cons, List.not_mem_nil, not_false_iff,
        List.nodup_nil, and_true, true_and]
      refine ⟨h.erase k, ?_⟩
      intro a ha hb
      simp only [List.mem_singleton] at hb
      subst hb
      exact (h.mem_erase_iff.mp ha).1 rfl
    · exact h

theorem Policy.mem_add_order {p : Policy} {k t : Nat} :
    t ∈ (p.add k).order ↔ t ∈ p.order ∨ t = k := by
  unfold Policy.add
  split
  · rename_i hk
    simp only [iff_self_or]
    rintro rfl
    exact hk
  · simp

theorem Policy.add_order_eq {p : Policy} {k : Nat} (hk : k ∉ p.order) :
    (p.add k).order = p.order ++ [k] := by
  unfold Policy.add
  split
  · exact absurd (by assumption) hk
  · rfl

theorem Policy.add_order_nodup {p : Policy} {k : Nat} (h : p.order.Nodup)
    (hk : k ∉ p.order) : (p.add k).order.Nodup := by
  rw [Policy.add_order_eq hk]
  simp only [List.nodup_append, List.nodup_cons, List.not_mem_nil, not_false_iff,
    List.nodup_nil, and_true, true_and]
  refine ⟨h, ?_⟩
  intro a ha hb
  simp only [List.mem_singleton] at hb
  subst hb
  exact hk ha

theorem Policy.remove_order_eq (p : Policy) (k : Nat) :
    (p.remove k).order = p.order.erase k := rfl

theorem Policy.mem_remove_order {p : Policy} {k t : Nat} (h : p.order.Nodup) :
    t ∈ (p.remove k).order ↔ t ∈ p.order ∧ t ≠ k := by
  rw [Policy.remove_order_eq, h.mem_erase_iff]
  tauto

theorem Policy.remove_order_nodup {p : Policy} {k : Nat} (h : p.order.Nodup) :
    (p.remove k).order.Nodup := h.erase k

theorem Policy.get_victim_mem {p : Policy} {v : Nat} (h : p.get_victim = some v) :
    v ∈ p.order :=
  List.mem_of_mem_head? h

theorem Policy.get_victim_eq_none {p : Policy} :
    p.get_victim = none ↔ p.order = [] := by
  unfold Policy.get_victim
  cases p.order <;> simp

/-! ### Helper lemmas: CacheSet search operations -/

theorem CacheSet.find_block_none {s : CacheSet} {tag : Nat}
    (h : s.find_block tag = none) : tag ∉ s.validTags := by
  intro hmem
  rw [CacheSet.validTags, mem_validTagsL] at hmem
  obtain ⟨b, hbl, hbv, rfl⟩ := hmem
  exact find_index_ne_none hbl (by simp [hbv]) h

theorem CacheSet.find_block_some {s : CacheSet} {tag : Nat} {i : Nat}
    (h : s.find_block tag = some i) :
    i < s.blocks.length ∧ (s.blocks.getD i default).valid = true ∧
      (s.blocks.getD i default).tag = tag := by
  obtain ⟨h1, h2⟩ := find_index_eq_some h
  simp only [Bool.and_eq_true, beq_iff_eq] at h2
  exact ⟨h1, h2.1, h2.2⟩

theorem CacheSet.find_empty_some {s : CacheSet} {i : Nat}
    (h : s.find_empty_block = some i) :
    i < s.blocks.length ∧ (s.blocks.getD i default).valid = false := by
  obtain ⟨h1, h2⟩ := find_index_eq_some h
  simp only [Bool.not_eq_true'] at h2
  exact ⟨h1, h2⟩

theorem CacheSet.find_empty_none {s : CacheSet}
    (h : s.find_empty_block = none) : ∀ b ∈ s.blocks, b.valid = true := by
  intro b hb
  have := find_index_eq_none.mp h b hb
  simpa using this

/-! ### Preservation of the set invariant -/

theorem setInv_access {s : CacheSet} {tag : Nat} {hit : Bool} {i : Nat}
    {ev : Option CacheBlock} {s1 : CacheSet}
    (hinv : SetInv s) (h : s.access tag = .ok (hit, i, ev, s1)) :
    SetInv s1 ∧ s1.blocks.length = s.blocks.length := by
  cases hfb : s.find_block tag with
  | some j =>
    simp only [CacheSet.access, hfb, Except.ok.injEq, Prod.mk.injEq] at h
    obtain ⟨-, -, -, hs1⟩ := h
    subst hs1
    refine ⟨⟨Policy.access_order_nodup hinv.nodup_policy, hinv.nodup_tags, ?_⟩, rfl⟩
    intro t
    rw [Policy.mem_access_order]
    exact hinv.same t
  | none =>
    have htag : tag ∉ s.validTags := CacheSet.find_block_none hfb
    have htago : tag ∉ s.policy.order := fun hm => htag ((hinv.same tag).mp hm)
    cases hfe : s.find_empty_block with
    | some j =>
      simp only [CacheSet.access, hfb, hfe, Except.ok.injEq, Prod.mk.injEq] at h
      obtain ⟨-, -, -, hs1⟩ := h
      subst hs1
      obtain ⟨hj, hjv⟩ := CacheSet.find_empty_some hfe
      have hdec := validTagsL_decomp (l := s.blocks) (i := j) hj
      rw [hjv] at hdec
      simp only [Bool.false_eq_true, if_false, List.nil_append] at hdec
      have hset : (s.fill j tag).validTags =
          validTagsL (s.blocks.take j) ++ (tag :: validTagsL (s.blocks.drop (j + 1))) := by
        show validTagsL (s.blocks.set j _) = _
        rw [validTagsL_set hj]
        simp
      have hvt : s.validTags =
          validTagsL (s.blocks.take j) ++ validTagsL (s.blocks.drop (j + 1)) := hdec
      have htAB : tag ∉ validTagsL (s.blocks.take j) ++ validTagsL (s.blocks.drop (j + 1)) := by
        rw [← hvt]; exact htag
      constructor
      · refine ⟨Policy.add_order_nodup hinv.nodup_policy htago, ?_, ?_⟩
        · rw [CacheSet.validTags] at hset ⊢
          rw [hset]
          rw [List.nodup_middle]
          refine List.Nodup.cons htAB ?_
          have := hinv.nodup_tags
          rw [hvt] at this
          exact this
        · intro t
          have hmem : t ∈ (s.fill j tag).policy.order ↔ t ∈ s.policy.order ∨ t = tag :=
            Policy.mem_add_order
          rw [hmem, hinv.same t, hvt, hset]
          simp only [List.mem_append, List.mem_cons]
          tauto
      · simp [CacheSet.fill]
    | none =>
      cases hv : s.policy.get_victim with
      | none =>
        rw [CacheSet.access, hfb, hfe] at h
        simp only [hv] at h
        exact Except.noConfusion h
      | some v =>
        cases hfv : s.find_block v with
        | none =>
          rw [CacheSet.access, hfb, hfe] at h
          simp only [hv, hfv] at h
          exact Except.noConfusion h
        | some j =>
          simp only [CacheSet.access, hfb, hfe, hv, hfv, Except.ok.injEq,
            Prod.mk.injEq] at h
          obtain ⟨-, -, -, hs1⟩ := h
          subst hs1
          obtain ⟨hj, hjv, hjt⟩ := CacheSet.find_block_some hfv
          have hvmem : v ∈ s.policy.order := Policy.get_victim_mem hv
          have hvvt : v ∈ s.validTags := (hinv.same v).mp hvmem
          have hne : tag ≠ v := fun he => htag (he ▸ hvvt)
          have hdec := validTagsL_decomp (l := s.blocks) (i := j) hj
          rw [if_pos hjv, hjt] at hdec
          simp only [List.singleton_append] at hdec
          have hvt : s.validTags =
              validTagsL (s.blocks.take j) ++ (v :: validTagsL (s.blocks.drop (j + 1))) :=
            hdec
          set A := validTagsL (s.blocks.take j) with hA
          set B := validTagsL (s.blocks.drop (j + 1)) with hB
          have hndAB : (v :: (A ++ B)).Nodup := by
            have := hinv.nodup_tags
            rw [hvt, List.nodup_middle] at this
            exact this
          have hvA : v ∉ A := fun hm => (List.nodup_cons.mp hndAB).1 (List.mem_append_left _ hm)
          have hvB : v ∉ B := fun hm => (List.nodup_cons.mp hndAB).1 (List.mem_append_right _ hm)
          have htA : tag ∉ A := fun hm => htag (hvt ▸ List.mem_append_left _ hm)
          have htB : tag ∉ B := fun hm =>
            htag (hvt ▸ List.mem_append_right _ (List.mem_cons_of_mem _ hm))
          have htagerase : tag ∉ s.policy.order.erase v :=
            fun hm => htago (List.mem_of_mem_erase hm)
          have horder :
              (({ s with policy := s.policy.remove v }).fill j tag).policy.order =
                s.policy.order.erase v ++ [tag] := by
            show ((s.policy.remove v).add tag).order = _
            rw [Policy.add_order_eq (p := s.policy.remove v) htagerase]
            rfl
          have hset2 : (({ s with policy := s.policy.remove v }).fill j tag).validTags =
              A ++ (tag :: B) := by
            show validTagsL (s.blocks.set j _) = _
            rw [validTagsL_set hj]
            simp
          constructor
          · refine ⟨?_, ?_, ?_⟩
            · rw [horder]
              simp only [List.nodup_append, List.nodup_cons, List.not_mem_nil,
                not_false_iff, List.nodup_nil, and_true, true_and]
              refine ⟨hinv.nodup_policy.erase v, ?_⟩
              intro a ha hb
              simp only [List.mem_singleton] at hb
              subst hb
              exact htagerase ha
            · rw [CacheSet.validTags] at hset2 ⊢
              rw [hset2, List.nodup_middle]
              refine List.Nodup.cons ?_ (List.nodup_cons.mp hndAB).2
              intro hm
              rcases List.mem_append.mp hm with hm | hm
              · exact htA hm
              · exact htB hm
            · intro t
              rw [horder, hset2]
              simp only [List.mem_append, List.mem_singleton, List.mem_cons,
                List.not_mem_nil, or_false, hinv.nodup_policy.mem_erase_iff]
              have hsame := hinv.same t
              rw [hvt] at hsame
              simp only [List.mem_append, List.mem_cons] at hsame
              rw [hsame]
              constructor
              · rintro (⟨hnv, h | h | h⟩ | rfl)
                · exact Or.inl h
                · exact absurd h hnv
                · exact Or.inr (Or.inr h)
                · exact Or.inr (Or.inl rfl)
              · rintro (h | h | h)
                · exact Or.inl ⟨fun he => hvA (he ▸ h), Or.inl h⟩
                · exact Or.inr h
                · exact Or.inl ⟨fun he => hvB (he ▸ h), Or.inr (Or.inr h)⟩
          · simp [CacheSet.fill]

/-! ### The initial set state and the dirty write-through -/

theorem validTagsL_replicate (n : Nat) :
    validTagsL (List.replicate n { tag := 0 }) = [] := by
  induction n with
  | zero => rfl
  | succ k ih =>
    rw [List.replicate_succ, validTagsL_cons]
    simpa using ih

theorem setInv_init (w bs : Nat) (k : PolicyKind) : SetInv (CacheSet.init w bs k) := by
  refine ⟨List.nodup_nil, ?_, ?_⟩
  · show (validTagsL (List.replicate w { tag := 0 })).Nodup
    rw [validTagsL_replicate]
    exact List.nodup_nil
  · intro t
    show t ∈ ([] : List Nat) ↔ t ∈ validTagsL (List.replicate w { tag := 0 })
    rw [validTagsL_replicate]

theorem markDirty_blocks_length (s : CacheSet) (i : Nat) :
    (s.markDirty i).blocks.length = s.blocks.length := by
  simp [CacheSet.markDirty]

theorem markDirty_validTags (s : CacheSet) (i : Nat) :
    (s.markDirty i).validTags = s.validTags := by
  by_cases h : i < s.blocks.length
  · show validTagsL (s.blocks.set i _) = validTagsL s.blocks
    rw [validTagsL_set h, validTagsL_decomp (l := s.blocks) (i := i) h]
  · show validTagsL (s.blocks.set i _) = validTagsL s.blocks
    rw [List.set_eq_of_length_le (Nat.le_of_not_lt h)]

theorem setInv_markDirty {s : CacheSet} (i : Nat) (h : SetInv s) :
    SetInv (s.markDirty i) := by
  refine ⟨h.nodup_policy, ?_, ?_⟩
  · rw [markDirty_validTags]
    exact h.nodup_tags
  · intro t
    rw [markDirty_validTags]
    exact h.same t

/-! ### The defensive branches are unreachable under the invariant -/

theorem access_ok_of_setInv {s : CacheSet} (hinv : SetInv s)
    (hlen : 0 < s.blocks.length) (tag : Nat) : ∃ r, s.access tag = .ok r := by
  cases hfb : s.find_block tag with
  | some j => exact ⟨_, by rw [CacheSet.access, hfb]⟩
  | none =>
    cases hfe : s.find_empty_block with
    | some j => exact ⟨_, by rw [CacheSet.access, hfb, hfe]⟩
    | none =>
      have hall : ∀ b ∈ s.blocks, b.valid = true := CacheSet.find_empty_none hfe
      obtain ⟨b0, hb0⟩ : ∃ b, b ∈ s.blocks := by
        cases hb : s.blocks with
        | nil => rw [hb] at hlen; simp at hlen
        | cons x xs => exact ⟨x, List.mem_cons_self x xs⟩
      have hb0v : b0.tag ∈ s.validTags :=
        mem_validTagsL.mpr ⟨b0, hb0, hall b0 hb0, rfl⟩
      have hb0o : b0.tag ∈ s.policy.order := (hinv.same _).mpr hb0v
      cases hv : s.policy.get_victim with
      | none =>
        rw [Policy.get_victim_eq_none] at hv
        rw [hv] at hb0o
        exact absurd hb0o (List.not_mem_nil _)
      | some v =>
        have hvvt : v ∈ s.validTags := (hinv.same v).mp (Policy.get_victim_mem hv)
        rw [CacheSet.validTags, mem_validTagsL] at hvvt
        obtain ⟨b, hbl, hbv, hbt⟩ := hvvt
        cases hfv : s.find_block v with
        | none =>
          have hne : find_index (fun b => b.valid && b.tag == v) s.blocks ≠ none :=
            find_index_ne_none hbl (by simp [hbv, hbt])
          exact absurd hfv hne
        | some j =>
          refine ⟨(false, j,
              some { tag := (s.blocks.getD j default).tag, valid := true,
                     dirty := (s.blocks.getD j default).dirty,
                     data := (s.blocks.getD j default).data },
              ({ s with policy := s.policy.remove v }).fill j tag), ?_⟩
          rw [CacheSet.access, hfb, hfe]
          simp only [hv, hfv]

/-! ### The shape of a successful set access -/

theorem CacheSet.access_evict_miss {s : CacheSet} {tag : Nat} {hit : Bool} {i : Nat}
    {ev : Option CacheBlock} {s1 : CacheSet}
    (h : s.access tag = .ok (hit, i, ev, s1)) (hev : ev.isSome = true) : hit = false := by
  cases hfb : s.find_block tag with
  | some j =>
    simp only [CacheSet.access, hfb, Except.ok.injEq, Prod.mk.injEq] at h
    obtain ⟨-, -, hev0, -⟩ := h
    rw [← hev0] at hev
    simp at hev
  | none =>
    cases hfe : s.find_empty_block with
    | some j =>
      simp only [CacheSet.access, hfb, hfe, Except.ok.injEq, Prod.mk.injEq] at h
      exact h.1.symm
    | none =>
      cases hv : s.policy.get_victim with
      | none =>
        rw [CacheSet.access, hfb, hfe] at h
        simp only [hv] at h
        exact Except.noConfusion h
      | some v =>
        cases hfv : s.find_block v with
        | none =>
          rw [CacheSet.access, hfb, hfe] at h
          simp only [hv, hfv] at h
          exact Except.noConfusion h
        | some j =>
          rw [CacheSet.access, hfb, hfe] at h
          simp only [hv, hfv, Except.ok.injEq, Prod.mk.injEq] at h
          exact h.1.symm

theorem CacheSet.access_shape {s : CacheSet} {tag : Nat} {hit : Bool} {i : Nat}
    {ev : Option CacheBlock} {s1 : CacheSet}
    (h : s.access tag = .ok (hit, i, ev, s1)) :
    (hit = true ∧ s.find_block tag = some i ∧ ev = none ∧ s1.blocks = s.blocks ∧
      s1.block_size = s.block_size) ∨
    (hit = false ∧ s.find_block tag = none ∧ i < s.blocks.length ∧
      s1.blocks = s.blocks.set i
        { tag := tag, valid := true, dirty := false
          data := some (List.replicate s.block_size 0) } ∧
      s1.block_size = s.block_size) := by
  cases hfb : s.find_block tag with
  | some j =>
    simp only [CacheSet.access, hfb, Except.ok.injEq, Prod.mk.injEq] at h
    obtain ⟨hh, hi, hev0, hs1⟩ := h
    subst hs1
    subst hi
    exact Or.inl ⟨hh.symm, rfl, hev0.symm, rfl, rfl⟩
  | none =>
    cases hfe : s.find_empty_block with
    | some j =>
      simp only [CacheSet.access, hfb, hfe, Except.ok.injEq, Prod.mk.injEq] at h
      obtain ⟨hh, hi, hev0, hs1⟩ := h
      subst hs1
      subst hi
      exact Or.inr ⟨hh.symm, rfl, (CacheSet.find_empty_some hfe).1, rfl, rfl⟩
    | none =>
      cases hv : s.policy.get_victim with
      | none =>
        rw [CacheSet.access, hfb, hfe] at h
        simp only [hv] at h
        exact Except.noConfusion h
      | some v =>
        cases hfv : s.find_block v with
        | none =>
          rw [CacheSet.access, hfb, hfe] at h
          simp only [hv, hfv] at h
          exact Except.noConfusion h
        | some j =>
          rw [CacheSet.access, hfb, hfe] at h
          simp only [hv, hfv, Except.ok.injEq, Prod.mk.injEq] at h
          obtain ⟨hh, hi, hev0, hs1⟩ := h
          subst hs1
          subst hi
          exact Or.inr ⟨hh.symm, rfl, (CacheSet.find_block_some hfv).1, rfl, rfl⟩

/-! ### Cache-level inversion and invariants -/

theorem Cache.access_inv {c : Cache} {address : Nat} {w : Bool} {hit : Bool}
    {ev : Option CacheBlock} {c1 : Cache}
    (h : c.access address w = .ok (hit, ev, c1)) :
    ∃ s bidx s1,
      c.sets[(get_address_parts address c.block_size c.num_sets).2.1]? = some s ∧
        s.access (get_address_parts address c.block_size c.num_sets).1 =
          .ok (hit, bidx, ev, s1) ∧
        c1 = { c with
                sets := c.sets.set (get_address_parts address c.block_size c.num_sets).2.1
                  (if w then s1.markDirty bidx else s1)
                stats := c.stats.record_access hit ev.isSome } := by
  rw [Cache.access] at h
  cases hs : c.sets[(get_address_parts address c.block_size c.num_sets).2.1]? with
  | none =>
    simp only [hs] at h
    exact Except.noConfusion h
  | some s =>
    simp only [hs] at h
    cases ha : s.access (get_address_parts address c.block_size c.num_sets).1 with
    | error e =>
      simp only [ha] at h
      exact Except.noConfusion h
    | ok r =>
      obtain ⟨hitb, bidx, ev0, s1⟩ := r
      simp only [ha, Except.ok.injEq, Prod.mk.injEq] at h
      obtain ⟨h1, h2, h3⟩ := h
      subst h1
      subst h2
      subst h3
      exact ⟨s, bidx, s1, rfl, ha, rfl⟩

theorem Cache.access_stats {c : Cache} {address : Nat} {w : Bool} {hit : Bool}
    {ev : Option CacheBlock} {c1 : Cache}
    (h : c.access address w = .ok (hit, ev, c1)) :
    c1.stats = c.stats.record_access hit ev.isSome ∧
      (ev.isSome = true → hit = false) := by
  obtain ⟨s, bidx, s1, hs, ha, hc1⟩ := Cache.access_inv h
  subst hc1
  exact ⟨rfl, fun hev => CacheSet.access_evict_miss ha hev⟩

theorem Cache.access_ways {c : Cache} {address : Nat} {w : Bool} {hit : Bool}
    {ev : Option CacheBlock} {c1 : Cache}
    (h : c.access address w = .ok (hit, ev, c1)) :
    c1.ways = c.ways ∧ c1.block_size = c.block_size ∧ c1.num_sets = c.num_sets := by
  obtain ⟨s, bidx, s1, -, -, hc1⟩ := Cache.access_inv h
  subst hc1
  exact ⟨rfl, rfl, rfl⟩

theorem cacheInv_access {c : Cache} {address : Nat} {w : Bool} {hit : Bool}
    {ev : Option CacheBlock} {c1 : Cache}
    (hc : CacheInv c) (h : c.access address w = .ok (hit, ev, c1)) : CacheInv c1 := by
  obtain ⟨s, bidx, s1, hs, ha, hc1⟩ := Cache.access_inv h
  subst hc1
  intro x hx
  rcases List.mem_or_eq_of_mem_set hx with hx | rfl
  · exact hc x hx
  · have hsmem : s ∈ c.sets := List.getElem?_mem hs
    obtain ⟨hsinv, hslen⟩ := hc s hsmem
    obtain ⟨h1, h2⟩ := setInv_access hsinv ha
    cases w with
    | false => exact ⟨h1, h2.trans hslen⟩
    | true =>
      exact ⟨setInv_markDirty _ h1, (markDirty_blocks_length _ _).trans (h2.trans hslen)⟩

theorem cacheInv_build {t b a : Int} {k : PolicyKind} {c : Cache}
    (h : Cache.build t b a k = .ok c) :
    CacheInv c ∧ c.stats = CacheStatistics.init := by
  rw [Cache.build] at h
  cases hc : calculate_cache_parameters t b a with
  | error e =>
    rw [hc] at h
    exact Except.noConfusion h
  | ok nw =>
    rw [hc] at h
    simp only [Except.map] at h
    obtain rfl := Except.ok.inj h
    refine ⟨?_, rfl⟩
    intro s hs
    rw [List.eq_of_mem_replicate hs]
    exact ⟨setInv_init _ _ _, by simp [CacheSet.init]⟩

theorem cacheInv_accessMany {c : Cache} (hc : CacheInv c) (l : List (Nat × Bool)) :
    CacheInv (c.accessMany l) ∧ (c.accessMany l).ways = c.ways := by
  induction l generalizing c with
  | nil => exact ⟨hc, rfl⟩
  | cons aw rest ih =>
    rw [Cache.accessMany]
    cases h : c.access aw.1 aw.2 with
    | error e => exact ⟨hc, rfl⟩
    | ok r =>
      obtain ⟨hit, ev, c1⟩ := r
      have h1 := cacheInv_access hc h
      obtain ⟨ha, hb⟩ := ih h1
      exact ⟨ha, hb.trans (Cache.access_ways h).1⟩

/-! ### Statistics invariants -/

theorem statsInv_record {s : CacheStatistics} {hit eviction : Bool}
    (h : StatsInv s) (hev : eviction = true → hit = false) :
    StatsInv (s.record_access hit eviction) := by
  obtain ⟨h1, h2⟩ := h
  cases hit <;> cases eviction <;>
    simp_all [CacheStatistics.record_access, StatsInv] <;> omega

theorem statsInv_accessMany {c : Cache} (hc : StatsInv c.stats) (l : List (Nat × Bool)) :
    StatsInv (c.accessMany l).stats := by
  induction l generalizing c with
  | nil => exact hc
  | cons aw rest ih =>
    rw [Cache.accessMany]
    cases h : c.access aw.1 aw.2 with
    | error e => exact hc
    | ok r =>
      obtain ⟨hit, ev, c1⟩ := r
      obtain ⟨hst, hevm⟩ := Cache.access_stats h
      refine ih ?_
      rw [hst]
      exact statsInv_record hc hevm

theorem applyEvents_sum_aux (l : List (Bool × Bool)) :
    ∀ s : CacheStatistics, s.accesses = s.hits + s.misses →
      (l.foldl (fun s e => s.record_access e.1 e.2) s).accesses =
        (l.foldl (fun s e => s.record_access e.1 e.2) s).hits +
          (l.foldl (fun s e => s.record_access e.1 e.2) s).misses := by
  induction l with
  | nil => exact fun s hs => hs
  | cons e rest ih =>
    intro s hs
    rw [List.foldl_cons]
    refine ih _ ?_
    cases he : e.1 <;> simp [CacheStatistics.record_access, hs, he] <;> omega

theorem applyEvents_sum (l : List (Bool × Bool)) :
    (CacheStatistics.applyEvents l).accesses =
      (CacheStatistics.applyEvents l).hits + (CacheStatistics.applyEvents l).misses :=
  applyEvents_sum_aux l CacheStatistics.init rfl

/-! ### Claim theorems -/

/-- C1: For every Cache built from a valid configuration and every
sequence of access calls, each CacheSet satisfies: the number of valid
blocks never exceeds ways-per-set, and the tags tracked by the set's
replacement policy are exactly the tags of the valid blocks; the
invariant holds initially and is preserved by every CacheSet.access. -/
theorem claim_C1 :
    (∀ (w bs : Nat) (k : PolicyKind), SetInv (CacheSet.init w bs k)) ∧
    (∀ (s : CacheSet) (tag : Nat) (hit : Bool) (i : Nat) (ev : Option CacheBlock)
      (s1 : CacheSet), SetInv s → s.access tag = .ok (hit, i, ev, s1) →
        SetInv s1 ∧ s1.blocks.length = s.blocks.length) ∧
    (∀ s : CacheSet, (s.blocks.filter (·.valid)).length ≤ s.blocks.length) ∧
    (∀ (t b a : Int) (k : PolicyKind) (c : Cache), Cache.build t b a k = .ok c →
      ∀ (l : List (Nat × Bool)) (s : CacheSet), s ∈ (c.accessMany l).sets →
        SetInv s ∧ s.blocks.length = c.ways.toNat) := by
  refine ⟨setInv_init, ?_, ?_, ?_⟩
  · intro s tag hit i ev s1 hinv h
    exact setInv_access hinv h
  · intro s
    exact List.length_filter_le _ _
  · intro t b a k c hb l s hs
    obtain ⟨hci, -⟩ := cacheInv_build hb
    obtain ⟨hall, hways⟩ := cacheInv_accessMany hci l
    have hres := hall s hs
    rw [hways] at hres
    exact hres

/-- Witness for C1 at a concrete input: the empty two-way LRU set
satisfies the invariant, and so does its state after access(7). -/
theorem claim_C1_witness :
    SetInv demoSet1 ∧ demoSet1.blocks.length = demoSet.blocks.length :=
  claim_C1.2.1 demoSet 7 false 0 none demoSet1
    (by unfold demoSet; exact claim_C1.1 2 4 PolicyKind.lru) rfl

/-- C2: every accepted configuration satisfies
numSets × ways × blockSize = totalSize; associativity 1 gives
(totalBlocks, 1), -1 gives (1, totalBlocks), and any other accepted
associativity a gives (totalBlocks // a, a). -/
theorem claim_C2 (t b a n w : Int)
    (h : calculate_cache_parameters t b a = .ok (n, w)) :
    n * w * b = t ∧
      (a = 1 → n = t.fdiv b ∧ w = 1) ∧
      (a = -1 → n = 1 ∧ w = t.fdiv b) ∧
      (a ≠ 1 → a ≠ -1 → n = (t.fdiv b).fdiv a ∧ w = a) := by
  rw [calculate_cache_parameters] at h
  by_cases h1 : t ≤ 0 ∨ b ≤ 0
  · rw [if_pos h1] at h
    exact Except.noConfusion h
  rw [if_neg h1] at h
  by_cases h2 : t.fmod b ≠ 0
  · rw [if_pos h2] at h
    exact Except.noConfusion h
  rw [if_neg h2] at h
  push_neg at h2
  have htb : b * t.fdiv b = t := by
    have := Int.fdiv_add_fmod t b
    omega
  by_cases ha1 : a = -1
  · rw [if_pos ha1] at h
    simp only [Except.ok.injEq, Prod.mk.injEq] at h
    obtain ⟨rfl, rfl⟩ := h
    refine ⟨?_, ?_, fun _ => ⟨rfl, rfl⟩, fun _ hc => absurd ha1 hc⟩
    · rw [one_mul, mul_comm]
      exact htb
    · intro ha
      rw [ha] at ha1
      exact absurd ha1 (by decide)
  rw [if_neg ha1] at h
  by_cases ha2 : a = 1
  · rw [if_pos ha2] at h
    simp only [Except.ok.injEq, Prod.mk.injEq] at h
    obtain ⟨rfl, rfl⟩ := h
    refine ⟨?_, fun _ => ⟨rfl, rfl⟩, fun ha => absurd ha ha1, fun hc _ => absurd ha2 hc⟩
    rw [mul_one, mul_comm]
    exact htb
  rw [if_neg ha2] at h
  by_cases ha0 : a = 0
  · rw [if_pos ha0] at h
    exact Except.noConfusion h
  rw [if_neg ha0] at h
  by_cases hm : (t.fdiv b).fmod a ≠ 0
  · rw [if_pos hm] at h
    exact Except.noConfusion h
  rw [if_neg hm] at h
  push_neg at hm
  simp only [Except.ok.injEq, Prod.mk.injEq] at h
  obtain ⟨rfl, rfl⟩ := h
  have hta : a * (t.fdiv b).fdiv a = t.fdiv b := by
    have := Int.fdiv_add_fmod (t.fdiv b) a
    omega
  refine ⟨?_, fun ha => absurd ha ha2, fun ha => absurd ha ha1, fun _ _ => ⟨rfl, rfl⟩⟩
  rw [mul_comm ((t.fdiv b).fdiv a) a, hta, mul_comm]
  exact htb

/-- Witness for C2 at totalSize 16, blockSize 4, associativity 2. -/
theorem claim_C2_witness :
    (2 : Int) * 2 * 4 = 16 ∧
      ((2 : Int) = 1 → (2 : Int) = Int.fdiv 16 4 ∧ (2 : Int) = 1) ∧
      ((2 : Int) = -1 → (2 : Int) = 1 ∧ (2 : Int) = Int.fdiv 16 4) ∧
      ((2 : Int) ≠ 1 → (2 : Int) ≠ -1 →
        (2 : Int) = (Int.fdiv 16 4).fdiv 2 ∧ (2 : Int) = 2) :=
  claim_C2 16 4 2 2 2 (by rfl)

/-- C3: after any sequence of accesses on a built cache,
accesses = hits + misses and evictions ≤ misses; each successful access
records exactly one statistics event and leaves every counter
non-decreasing. -/
theorem claim_C3 :
    (∀ (t b a : Int) (k : PolicyKind) (c : Cache), Cache.build t b a k = .ok c →
      ∀ l : List (Nat × Bool),
        (c.accessMany l).stats.accesses =
            (c.accessMany l).stats.hits + (c.accessMany l).stats.misses ∧
          (c.accessMany l).stats.evictions ≤ (c.accessMany l).stats.misses) ∧
    (∀ (c : Cache) (address : Nat) (w hit : Bool) (ev : Option CacheBlock) (c1 : Cache),
      c.access address w = .ok (hit, ev, c1) →
        c1.stats = c.stats.record_access hit ev.isSome ∧
        c1.stats.accesses = c.stats.accesses + 1 ∧
        c1.stats.hits + c1.stats.misses = c.stats.hits + c.stats.misses + 1 ∧
        c.stats.hits ≤ c1.stats.hits ∧ c.stats.misses ≤ c1.stats.misses ∧
        c.stats.evictions ≤ c1.stats.evictions) := by
  constructor
  · intro t b a k c hb l
    have hst : c.stats = CacheStatistics.init := (cacheInv_build hb).2
    have h0 : StatsInv c.stats := by
      rw [hst]
      exact ⟨rfl, Nat.le_refl 0⟩
    exact statsInv_accessMany h0 l
  · intro c address w hit ev c1 h
    obtain ⟨hst, -⟩ := Cache.access_stats h
    rw [hst]
    cases hit <;> cases hev : ev.isSome <;>
      simp [CacheStatistics.record_access] <;> omega

/-- Witness for C3: a concrete cache and access sequence. -/
theorem claim_C3_witness :
    (demoCache.accessMany [(0, false), (4, false), (8, false)]).stats.accesses =
        (demoCache.accessMany [(0, false), (4, false), (8, false)]).stats.hits +
          (demoCache.accessMany [(0, false), (4, false), (8, false)]).stats.misses ∧
      (demoCache.accessMany [(0, false), (4, false), (8, false)]).stats.evictions ≤
        (demoCache.accessMany [(0, false), (4, false), (8, false)]).stats.misses :=
  claim_C3.1 8 4 (-1) PolicyKind.lru demoCache (by rfl) [(0, false), (4, false), (8, false)]

/-- C5: in the fully associative 2-block cache (size 8, block 4), after
accesses 0, 4, 0, the access to 8 evicts the block with the tag of
address 4 (tag 1) under LRU and the block with the tag of address 0
(tag 0) under FIFO. -/
theorem claim_C5 :
    (divergenceEvicted PolicyKind.lru).map CacheBlock.tag = some 1 ∧
    (divergenceEvicted PolicyKind.fifo).map CacheBlock.tag = some 0 ∧
    (get_address_parts 4 4 1).1 = 1 ∧ (get_address_parts 0 4 1).1 = 0 :=
  ⟨rfl, rfl, rfl, rfl⟩

/-- C6: under the §3 invariant (which includes a positive number of
ways), the two defensive RuntimeError branches of CacheSet.access are
unreachable: every access returns normally. -/
theorem claim_C6 (s : CacheSet) (tag : Nat) (hinv : SetInv s)
    (hpos : 0 < s.blocks.length) :
    (∃ r, s.access tag = .ok r) ∧ ∀ e : String, s.access tag ≠ .error e := by
  obtain ⟨r, hr⟩ := access_ok_of_setInv hinv hpos tag
  refine ⟨⟨r, hr⟩, fun e he => ?_⟩
  rw [hr] at he
  exact Except.noConfusion he

/-- Witness for C6 at the concrete empty two-way LRU set. -/
theorem claim_C6_witness :
    (∃ r, demoSet.access 3 = .ok r) ∧ ∀ e : String, demoSet.access 3 ≠ .error e :=
  claim_C6 demoSet 3 (by unfold demoSet; exact setInv_init 2 4 PolicyKind.lru) (by decide)

/-- C9: for statistics reachable by record_access events, hit_rate and
miss_rate sum to 1 whenever accesses > 0, and are both 0 when
accesses = 0 (the division is guarded, never by zero). -/
theorem claim_C9 (l : List (Bool × Bool)) :
    (0 < (CacheStatistics.applyEvents l).accesses →
      (CacheStatistics.applyEvents l).hit_rate +
        (CacheStatistics.applyEvents l).miss_rate = 1) ∧
    ((CacheStatistics.applyEvents l).accesses = 0 →
      (CacheStatistics.applyEvents l).hit_rate = 0 ∧
        (CacheStatistics.applyEvents l).miss_rate = 0) := by
  have hsum := applyEvents_sum l
  constructor
  · intro hpos
    rw [CacheStatistics.hit_rate, CacheStatistics.miss_rate, if_pos hpos, if_pos hpos]
    rw [div_add_div_same, ← Nat.cast_add, ← hsum]
    have hne : ((CacheStatistics.applyEvents l).accesses : ℚ) ≠ 0 := by
      exact_mod_cast Nat.pos_iff_ne_zero.mp hpos
    exact div_self hne
  · intro h0
    rw [CacheStatistics.hit_rate, CacheStatistics.miss_rate, h0]
    simp

/-- Witness for C9 at a concrete event list with two accesses. -/
theorem claim_C9_witness :
    (CacheStatistics.applyEvents [(true, false), (false, true)]).hit_rate +
      (CacheStatistics.applyEvents [(true, false), (false, true)]).miss_rate = 1 :=
  (claim_C9 [(true, false), (false, true)]).1 (by decide)

/-- C10: associativity 0 with valid sizes raises the unhandled
ZeroDivisionError rather than InvalidConfiguration; associativity -2
with 4 blocks is accepted with negative numSets, builds a Cache with no
sets, and every subsequent access fails with an out-of-range index. -/
theorem claim_C10 :
    (∀ t b : Int, 0 < t → 0 < b → t.fmod b = 0 →
      calculate_cache_parameters t b 0 = .error CalcError.zeroDivision) ∧
    calculate_cache_parameters 16 4 (-2) = .ok (-2, -2) ∧
    Cache.build 16 4 (-2) PolicyKind.lru = .ok demoNegCache ∧
    demoNegCache.sets = [] ∧ demoNegCache.num_sets = -2 ∧
    (∀ (addr : Nat) (w : Bool) (r : Bool × Option CacheBlock × Cache),
      demoNegCache.access addr w ≠ .ok r) := by
  refine ⟨?_, rfl, rfl, rfl, rfl, ?_⟩
  · intro t b ht hb hmod
    rw [calculate_cache_parameters]
    rw [if_neg (by omega), if_neg (by simpa using hmod)]
    norm_num
  · intro addr w r h
    rw [Cache.access] at h
    simp only [show demoNegCache.sets = ([] : List CacheSet) from rfl,
      List.getElem?_nil] at h
    exact Except.noConfusion h

/-- Witness for C10 at totalSize 16, blockSize 4. -/
theorem claim_C10_witness :
    calculate_cache_parameters 16 4 0 = .error CalcError.zeroDivision :=
  claim_C10.1 16 4 (by decide) (by decide) (by decide)

theorem getD_set_self {l : List CacheBlock} {i : Nat} (h : i < l.length)
    (a d : CacheBlock) : (l.set i a).getD i d = a := by
  rw [List.getD_eq_getElem _ _ (by simpa using h)]
  exact List.getElem_set_self (by simpa using h)

/-- C4: a write access that misses leaves the freshly loaded block with
dirty = true (after a zero-filled, clean fill); a write access that hits
sets dirty = true on the matching block while keeping its tag and data. -/
theorem claim_C4 (c : Cache) (address : Nat) (hit : Bool) (ev : Option CacheBlock)
    (c1 : Cache) (h : c.access address true = .ok (hit, ev, c1)) :
    ∃ (s s2 : CacheSet) (i : Nat),
      c.sets[(get_address_parts address c.block_size c.num_sets).2.1]? = some s ∧
      c1.sets[(get_address_parts address c.block_size c.num_sets).2.1]? = some s2 ∧
      ((hit = true ∧ ∃ blk : CacheBlock, s.blocks[i]? = some blk ∧ blk.valid = true ∧
          blk.tag = (get_address_parts address c.block_size c.num_sets).1 ∧
          s2.blocks[i]? = some { blk with dirty := true }) ∨
       (hit = false ∧ s2.blocks[i]? = some
          { tag := (get_address_parts address c.block_size c.num_sets).1
            valid := true
            dirty := true
            data := some (List.replicate s.block_size 0) })) := by
  obtain ⟨s, bidx, s1, hs, ha, hc1⟩ := Cache.access_inv h
  have hidx : (get_address_parts address c.block_size c.num_sets).2.1 < c.sets.length := by
    by_contra hnot
    rw [List.getElem?_eq_none (Nat.le_of_not_lt hnot)] at hs
    exact Option.noConfusion hs
  subst hc1
  refine ⟨s, s1.markDirty bidx, bidx, hs, ?_, ?_⟩
  · show (c.sets.set _ _)[_]? = _
    rw [if_pos rfl]
    exact List.getElem?_set_self hidx
  · rcases CacheSet.access_shape ha with ⟨hh, hfb, hev, hbl, hbs⟩ | ⟨hh, hfb, hlt, hbl, hbs⟩
    · obtain ⟨hlt, hv, ht⟩ := CacheSet.find_block_some hfb
      refine Or.inl ⟨hh, s.blocks.getD bidx default, ?_, hv, ht, ?_⟩
      · rw [List.getD_eq_getElem _ _ hlt]
        exact List.getElem?_eq_getElem hlt
      · show (s1.markDirty bidx).blocks[bidx]? = _
        simp only [CacheSet.markDirty]
        rw [hbl]
        exact List.getElem?_set_self hlt
    · refine Or.inr ⟨hh, ?_⟩
      show (s1.markDirty bidx).blocks[bidx]? = _
      simp only [CacheSet.markDirty]
      rw [hbl, getD_set_self hlt, List.set_set]
      exact List.getElem?_set_self hlt

/-- Witness for C4: a concrete write access to address 0 on the demo
cache, a miss that loads and dirties slot 0 of set 0. -/
theorem claim_C4_witness :
    ∃ (s s2 : CacheSet) (i : Nat),
      demoCache.sets[(get_address_parts 0 demoCache.block_size demoCache.num_sets).2.1]? =
          some s ∧
      demoCache1.sets[(get_address_parts 0 demoCache.block_size demoCache.num_sets).2.1]? =
          some s2 ∧
      ((false = true ∧ ∃ blk : CacheBlock, s.blocks[i]? = some blk ∧ blk.valid = true ∧
          blk.tag = (get_address_parts 0 demoCache.block_size demoCache.num_sets).1 ∧
          s2.blocks[i]? = some { blk with dirty := true }) ∨
       (false = false ∧ s2.blocks[i]? = some
          { tag := (get_address_parts 0 demoCache.block_size demoCache.num_sets).1
            valid := true
            dirty := true
            data := some (List.replicate s.block_size 0) })) :=
  claim_C4 demoCache 0 false none demoCache1 (by rfl)

/-- C7 counterexample: the claim's stated failure set includes
associativity 0 (0 does not evenly divide the positive block count), yet
the code does not raise InvalidConfiguration there — it dies with an
unhandled ZeroDivisionError. -/
theorem claim_C7_counterexample :
    claimedInvalidCond 4 4 0 ∧
      isInvalidConfig (calculate_cache_parameters 4 4 0) = false ∧
      calculate_cache_parameters 4 4 0 = .error CalcError.zeroDivision :=
  ⟨by unfold claimedInvalidCond; decide, rfl, rfl⟩

/-- C7 amended: InvalidConfiguration is raised exactly when
totalSize ≤ 0 or blockSize ≤ 0, or totalSize is not divisible by
blockSize, or the associativity is none of -1, 1, 0 and does not evenly
divide totalBlocks (associativity 0 instead raises an unhandled
ZeroDivisionError); the two concrete configurations of the claim fail,
and no Cache is produced from any failing derivation. -/
theorem claim_C7_amended :
    (∀ t b a : Int,
      (isInvalidConfig (calculate_cache_parameters t b a) = true ↔
        (t ≤ 0 ∨ b ≤ 0 ∨ t.fmod b ≠ 0 ∨
          (a ≠ -1 ∧ a ≠ 1 ∧ a ≠ 0 ∧ (t.fdiv b).fmod a ≠ 0))) ∧
      (∀ (k : PolicyKind) (e : CalcError), calculate_cache_parameters t b a = .error e →
        ∀ c : Cache, Cache.build t b a k ≠ .ok c)) ∧
    isInvalidConfig (calculate_cache_parameters 10 4 1) = true ∧
    isInvalidConfig (calculate_cache_parameters 16 4 3) = true := by
  refine ⟨fun t b a => ⟨?_, ?_⟩, rfl, rfl⟩
  · rw [calculate_cache_parameters]
    by_cases h1 : t ≤ 0 ∨ b ≤ 0
    · rw [if_pos h1]
      simp only [isInvalidConfig, true_iff]
      rcases h1 with h | h
      exacts [Or.inl h, Or.inr (Or.inl h)]
    rw [if_neg h1]
    push_neg at h1
    by_cases h2 : t.fmod b ≠ 0
    · rw [if_pos h2]
      simp only [isInvalidConfig, true_iff]
      exact Or.inr (Or.inr (Or.inl h2))
    rw [if_neg h2]
    push_neg at h2
    by_cases ha1 : a = -1
    · rw [if_pos ha1]
      simp only [isInvalidConfig, Bool.false_eq_true, false_iff]
      rintro (h | h | h | ⟨hne, -⟩)
      · omega
      · omega
      · exact h h2
      · exact hne ha1
    rw [if_neg ha1]
    by_cases ha2 : a = 1
    · rw [if_pos ha2]
      simp only [isInvalidConfig, Bool.false_eq_true, false_iff]
      rintro (h | h | h | ⟨-, hne, -⟩)
      · omega
      · omega
      · exact h h2
      · exact hne ha2
    rw [if_neg ha2]
    by_cases ha0 : a = 0
    · rw [if_pos ha0]
      simp only [isInvalidConfig, Bool.false_eq_true, false_iff]
      rintro (h | h | h | ⟨-, -, hne, -⟩)
      · omega
      · omega
      · exact h h2
      · exact hne ha0
    rw [if_neg ha0]
    by_cases hm : (t.fdiv b).fmod a ≠ 0
    · rw [if_pos hm]
      simp only [isInvalidConfig, true_iff]
      exact Or.inr (Or.inr (Or.inr ⟨ha1, ha2, ha0, hm⟩))
    · rw [if_neg hm]
      simp only [isInvalidConfig, Bool.false_eq_true, false_iff]
      push_neg at hm
      rintro (h | h | h | ⟨-, -, -, hne⟩)
      · omega
      · omega
      · exact h h2
      · exact hne hm
  · intro k e hcal c hok
    rw [Cache.build, hcal] at hok
    simp only [Except.map] at hok
    exact Except.noConfusion hok

/-- Witness for C7's amended claim: the 10/4 configuration of the claim
fails and produces no Cache. -/
theorem claim_C7_witness :
    Cache.build 10 4 1 PolicyKind.lru ≠ .ok demoCache :=
  (claim_C7_amended.1 10 4 1).2 PolicyKind.lru
    (CalcError.invalid "Cache size must be divisible by block size") (by rfl) demoCache

/-! ### parse_size characterization -/

end CacheSim
